import Mathlib

/-!
Verification of the bashdrop one-shot relay (`bashdrop-server.py`).

The program is a sequential, single-threaded two-phase relay:
`accept_upload` listens on one port, accepts connections until one of them
delivers a non-empty first chunk within the probe timeout, copies that
connection's byte stream into a staged temporary file, then
`serve_download` listens again on the same port and sends the staged
file's bytes to one download connection; `main` finally deletes the
staged file and its temporary directory.

The embedding below models byte strings as `List Nat`, a connection as
the sequence of results its `recv` calls produce, and the socket and
filesystem effects of `main` as explicit state passing.
-/

namespace Bashdrop

/-- Byte strings (contents of `recv` results and of the staged file). -/
abbrev Bytes := List Nat

/-- `CHUNK_SIZE = 131072` from the source: the read size of the
download-phase file read loop. -/
def CHUNK_SIZE : Nat := 131072

/-- `DEFAULT_PORT = 9000` from the source. -/
def DEFAULT_PORT : Nat := 9000

/-- Result of the first `recv` on a freshly accepted upload connection,
performed under the `PROBE_WAIT` timeout (source lines 195-199):
either the timeout fires (`socket.timeout`, turned into an empty chunk),
or a chunk arrives (`chunk []` is an orderly end-of-stream), or some
other exception is raised (handled by the outer `except`). -/
inductive FirstResult where
  | timeout : FirstResult
  | chunk : Bytes → FirstResult
  | exn : FirstResult
deriving DecidableEq

/-- Result of one `recv` inside the copy loop (source lines 209-214):
a chunk (`chunk []` is an orderly end-of-stream) or an exception. -/
inductive RestEv where
  | chunk : Bytes → RestEv
  | exn : RestEv
deriving DecidableEq

/-- One upload connection, described by what its `recv` calls would
return: the first receive's result and the stream of later results. -/
structure Conn where
  first : FirstResult
  rest : List RestEv
deriving DecidableEq

/-- The receive timeout in effect at a `recv` call: the `PROBE_WAIT`
probe timeout set at line 195, or no timeout after `settimeout(None)`
at line 200. -/
inductive TO where
  | probeWait : TO
  | noTimeout : TO
deriving DecidableEq

/-- Result of the inner copy loop (source lines 206-214) for one
classified sender: the staged file's content written so far, the
accumulated size counter, whether the loop ended with an orderly
end-of-stream (`done = true` breaks the outer accept loop), and the
timeout in effect at each `recv` the loop performed. -/
structure CopyOut where
  content : Bytes
  size : Nat
  done : Bool
  tos : List TO
deriving DecidableEq

/-- The copy loop of `accept_upload` (source lines 209-214), after the
first chunk has been written: each `recv` (always with no timeout)
returns a chunk that is appended to the file and counted, an empty
chunk breaks the loop (`done = true`), and an exception aborts it
(`done = false`, the outer handler then continues accepting).
An exhausted event list models a `recv` that never returns; it is
treated like an abort and is excluded by `terminated` where it matters. -/
def copyRest (acc : Bytes) (size : Nat) : List RestEv → CopyOut
  | [] => ⟨acc, size, false, []⟩
  | RestEv.chunk [] :: _ => ⟨acc, size, true, [TO.noTimeout]⟩
  | RestEv.chunk (x :: xs) :: evs =>
      let r := copyRest (acc ++ (x :: xs)) (size + (x :: xs).length) evs
      ⟨r.content, r.size, r.done, TO.noTimeout :: r.tos⟩
  | RestEv.exn :: _ => ⟨acc, size, false, [TO.noTimeout]⟩

/-- What the copy loop appends after the first chunk: the chunks
received before the first end-of-stream or exception. -/
def copiedOf : List RestEv → Bytes
  | [] => []
  | RestEv.chunk [] :: _ => []
  | RestEv.chunk (x :: xs) :: evs => (x :: xs) ++ copiedOf evs
  | RestEv.exn :: _ => []

/-- Whether the copy loop reaches an orderly end-of-stream (an empty
chunk) before any exception: exactly when it breaks with `done = true`. -/
def hasEOF : List RestEv → Bool
  | [] => false
  | RestEv.chunk [] :: _ => true
  | RestEv.chunk (_ :: _) :: evs => hasEOF evs
  | RestEv.exn :: _ => false

/-- Whether the event list reaches an end-of-stream or an exception at
some `recv` (a connection whose copy loop terminates at all); an
exhausted list without either would be a `recv` that blocks forever. -/
def terminated : List RestEv → Bool
  | [] => false
  | RestEv.chunk [] :: _ => true
  | RestEv.chunk (_ :: _) :: evs => terminated evs
  | RestEv.exn :: _ => true

/-- Result of handling one accepted upload connection: the staged
file's state (`none` if never created), the accumulated `size`
counter, whether the outer accept loop breaks, and the timeout in
effect at each `recv` performed on the connection. -/
structure ConnResult where
  file : Option Bytes
  size : Nat
  done : Bool
  recvTOs : List TO
deriving DecidableEq

/-- One iteration of the accept loop of `accept_upload` (source lines
193-222): the first `recv` runs under `settimeout(PROBE_WAIT)`; a
timeout or an empty first chunk closes the connection and continues
(nothing staged); an exception on the first `recv` is caught by the
outer handler and also continues; a non-empty first chunk opens the
staged file in truncating `"wb"` mode, writes the first chunk, and
runs the copy loop with the timeout cleared. -/
def processConn (file : Option Bytes) (size : Nat) (c : Conn) : ConnResult :=
  match c.first with
  | FirstResult.timeout => ⟨file, size, false, [TO.probeWait]⟩
  | FirstResult.exn => ⟨file, size, false, [TO.probeWait]⟩
  | FirstResult.chunk [] => ⟨file, size, false, [TO.probeWait]⟩
  | FirstResult.chunk (x :: xs) =>
      let r := copyRest (x :: xs) (size + (x :: xs).length) c.rest
      ⟨some r.content, r.size, r.done, TO.probeWait :: r.tos⟩

/-- Final result of `accept_upload`: staged file state, the returned
`size`, and whether the loop broke (the function returned normally). -/
structure UploadResult where
  file : Option Bytes
  size : Nat
  done : Bool
deriving DecidableEq

/-- The `while True: conn, _ = up_sock.accept(); ...` loop of
`accept_upload` (source lines 192-222) over the list of connections
that arrive: each connection is handled by `processConn`; the loop
breaks when a handled connection reaches an orderly end-of-stream and
otherwise keeps accepting.  An exhausted connection list models an
`accept` that never returns (`done = false`, no normal return). -/
def uploadLoop (file : Option Bytes) (size : Nat) : List Conn → UploadResult
  | [] => ⟨file, size, false⟩
  | c :: cs =>
      let r := processConn file size c
      if r.done then ⟨r.file, r.size, true⟩ else uploadLoop r.file r.size cs

/-- `accept_upload` (source lines 188-228): starts with no staged file
and `size = 0`. -/
def accept_upload (cs : List Conn) : UploadResult := uploadLoop none 0 cs

/-- A probe connection: the first `recv` yields no data, either because
the `PROBE_WAIT` timeout fired or because the peer closed the stream
without sending (empty first chunk). -/
def isProbe (c : Conn) : Prop :=
  c.first = FirstResult.timeout ∨ c.first = FirstResult.chunk []

instance (c : Conn) : Decidable (isProbe c) := by
  unfold isProbe; infer_instance

/-- Whether handling this connection breaks the accept loop: a
non-empty first chunk followed by an orderly end-of-stream. -/
def connDone (c : Conn) : Bool :=
  match c.first with
  | FirstResult.chunk (_ :: _) => hasEOF c.rest
  | _ => false

/-- The event stream of a well-behaved sender: its chunks, then an
orderly end-of-stream. -/
def cleanRest (chunks : List Bytes) : List RestEv :=
  chunks.map RestEv.chunk ++ [RestEv.chunk []]

/-- The file-read-and-send loop of `serve_download` (source lines
235-240): read the staged file `CHUNK_SIZE` bytes at a time and send
each chunk with `sendall` until the read returns nothing.  The result
is the byte stream delivered to the download connection. -/
def sendLoop (content : Bytes) : Bytes :=
  if h : content = [] then []
  else content.take CHUNK_SIZE ++ sendLoop (content.drop CHUNK_SIZE)
termination_by content.length
decreasing_by
  have hp : 0 < content.length := List.length_pos.mpr h
  simp [CHUNK_SIZE, List.length_drop]
  omega

/-- `serve_download` (source lines 230-249): accepts one download
connection and sends it the staged file's bytes via the read loop. -/
def serve_download (staged : Bytes) : Bytes := sendLoop staged

/-- `string.ascii_letters` from the Python standard library, used by
`gen_password` (source line 72). -/
def ascii_letters : List Char :=
  "abcdefghijklmnopqrstuvwxyzABCDEFGHIJKLMNOPQRSTUVWXYZ".data

/-- `string.digits` from the Python standard library. -/
def ascii_digits : List Char := "0123456789".data

/-- The password alphabet of `gen_password`:
`string.ascii_letters + string.digits` (source line 72). -/
def passwordAlphabet : List Char := ascii_letters ++ ascii_digits

/-- `secrets.choice(alphabet)` (source line 73), modelled on the fixed
alphabet: the random source supplies an index `k` and the choice is
the element at `k` reduced modulo the alphabet's length. -/
def secretsChoice (k : Nat) : Char :=
  passwordAlphabet.get ⟨k % passwordAlphabet.length, Nat.mod_lt k (by decide)⟩

/-- `gen_password(n)` (source lines 71-73), with the stream of random
draws made explicit: one character of the alphabet per position. -/
def gen_password (picks : List Nat) (n : Nat) : List Char :=
  (List.range n).map fun i => secretsChoice (picks.getD i 0)

/-- `password = args.password if args.password else gen_password(10)`
(source line 263): a missing or empty (falsy) command-line password is
replaced by a generated 10-character one. -/
def mainPassword (argPw : Option (List Char)) (picks : List Nat) : List Char :=
  match argPw with
  | some (c :: cs) => c :: cs
  | _ => gen_password picks 10

/-- State of the staging area: the staged file's content (`none` if the
file does not exist) and whether the temporary directory exists. -/
structure FS where
  staged : Option Bytes
  tmpdir : Bool
deriving DecidableEq

/-- `os.remove(staged_path)`: removes the staged file; on a missing
file it fails (returns `false`), leaving the state unchanged.  Every
caller in `main` wraps it in `try ... except Exception: pass`. -/
def osRemove (fs : FS) : FS × Bool :=
  match fs.staged with
  | some _ => (⟨none, fs.tmpdir⟩, true)
  | none => (fs, false)

/-- `os.rmdir(tmp_dir)`: removes the directory when it exists and is
empty (the staged file is its only possible entry), otherwise fails
leaving the state unchanged.  Every caller wraps it in
`try ... except Exception: pass`. -/
def osRmdir (fs : FS) : FS × Bool :=
  if fs.tmpdir && fs.staged == none then (⟨fs.staged, false⟩, true)
  else (fs, false)

/-- The cleanup sequence `main` runs on each terminating path
(source lines 285-292 and 305-312): try to remove the staged file,
then try to remove the temporary directory, ignoring each result. -/
def bestEffortCleanup (fs : FS) : FS := (osRmdir (osRemove fs).1).1

/-- How the upload phase of `main` ends: `accept_upload` returns, or a
`KeyboardInterrupt` lands in the `except` at source line 283. -/
inductive UpOutcome where
  | completed : UpOutcome
  | interrupted : UpOutcome
deriving DecidableEq

/-- How the download phase of `main` ends: `serve_download` returns, or
a `KeyboardInterrupt` lands in the `except` at source line 302. -/
inductive DownOutcome where
  | completed : DownOutcome
  | interrupted : DownOutcome
deriving DecidableEq

/-- The terminating paths of `main` (source lines 279-314) as a
filesystem transformer plus exit code: an interrupt during upload
cleans up and exits with code 130; after a completed upload the
download phase runs and, whether it completes or is interrupted, the
same cleanup runs and the program exits normally (code 0). -/
def mainRunFS (fs : FS) (up : UpOutcome) (down : DownOutcome) : FS × Nat :=
  match up with
  | UpOutcome.interrupted => (bestEffortCleanup fs, 130)
  | UpOutcome.completed =>
      match down with
      | DownOutcome.completed => (bestEffortCleanup fs, 0)
      | DownOutcome.interrupted => (bestEffortCleanup fs, 0)

/-- Which phase a listening socket belongs to. -/
inductive Phase where
  | up : Phase
  | down : Phase
deriving DecidableEq

/-- Socket-level events of `main`: `listen_once` creating a listening
socket bound to a port (source lines 64-69), closing a listening
socket, and accepting one connection on it. -/
inductive NetEv where
  | listenOn : Phase → Nat → NetEv
  | closeListen : Phase → NetEv
  | acceptConn : Phase → NetEv
deriving DecidableEq

/-- The `accept` events of the upload loop: one per handled connection,
stopping after the connection that breaks the loop. -/
def uploadAccepts : List Conn → List NetEv
  | [] => []
  | c :: cs =>
      NetEv.acceptConn Phase.up :: (if connDone c then [] else uploadAccepts cs)

/-- Socket events of `accept_upload` (source lines 188-228): create the
upload listener via `listen_once(port)`, accept connections, and close
the listener in the `finally` block — also when a `KeyboardInterrupt`
aborts the loop. -/
def acceptUploadTrace (port : Nat) (cs : List Conn) : List NetEv :=
  NetEv.listenOn Phase.up port :: (uploadAccepts cs ++ [NetEv.closeListen Phase.up])

/-- Socket events of `serve_download` (source lines 230-249): create
the download listener via `listen_once(port)` on the same port, accept
one connection, close the listener in the `finally` block. -/
def serveDownloadTrace (port : Nat) : List NetEv :=
  [NetEv.listenOn Phase.down port, NetEv.acceptConn Phase.down,
   NetEv.closeListen Phase.down]

/-- The socket events of a run of `main`: the upload phase, then — only
when the upload phase was not interrupted — the download phase
(source lines 279-300). -/
def mainNetTrace (port : Nat) (cs : List Conn) (upInterrupted : Bool) : List NetEv :=
  if upInterrupted then acceptUploadTrace port cs
  else acceptUploadTrace port cs ++ serveDownloadTrace port

/-- The ports carried by the `listenOn` events of a trace, in order. -/
def listenPorts : List NetEv → List Nat
  | [] => []
  | NetEv.listenOn _ p :: evs => p :: listenPorts evs
  | NetEv.closeListen _ :: evs => listenPorts evs
  | NetEv.acceptConn _ :: evs => listenPorts evs

/-- Checks, carrying the number `n` of currently open listening
sockets, that no `listenOn` event ever occurs while another listening
socket is still open. -/
def atMostOneOpen (n : Nat) : List NetEv → Bool
  | [] => true
  | NetEv.listenOn _ _ :: evs => (n == 0) && atMostOneOpen (n + 1) evs
  | NetEv.closeListen _ :: evs => atMostOneOpen (n - 1) evs
  | NetEv.acceptConn _ :: evs => atMostOneOpen n evs

/-- Checks, carrying whether the upload listener has been closed, that
every download `listenOn` event occurs only after the upload
listener's `closeListen` event. -/
def downAfterUpClose (upClosed : Bool) : List NetEv → Bool
  | [] => true
  | NetEv.closeListen Phase.up :: evs => downAfterUpClose true evs
  | NetEv.listenOn Phase.down _ :: evs => upClosed && downAfterUpClose upClosed evs
  | _ :: evs => downAfterUpClose upClosed evs

/-- The printed sender command for plain mode (source line 131): the
command text interpolates the public host, the port, the password and
the filename.  Quoting characters are elided; the arguments and their
order are those of the source. -/
def sender_cmd (pub : String) (port : Nat) (bname password : String) : String :=
  "bash -c (cat > /dev/tcp/" ++ pub ++ "/" ++ toString port ++ " < $1) "
    ++ password ++ " " ++ bname

/-- The printed receiver command for plain mode (source line 163). -/
def receiver_cmd (pub : String) (port : Nat) (bname password : String) : String :=
  "bash -c (cat < /dev/tcp/" ++ pub ++ "/" ++ toString port ++ " > $1) "
    ++ password ++ " " ++ bname

/-- The printed sender command for encrypted mode (source lines
147-152): the password is passed to `openssl enc` as `-pass pass:`. -/
def sender_enc_cmd (pub : String) (port : Nat) (bname password : String) : String :=
  "bash -c (sha256sum $1 && openssl enc -aes-256-cbc -pbkdf2 -salt -pass pass:"
    ++ password ++ " < $1 > /dev/tcp/" ++ pub ++ "/" ++ toString port ++ ") " ++ bname

/-- The printed receiver command for encrypted mode (source lines
179-183). -/
def receiver_enc_cmd (pub : String) (port : Nat) (bname password : String) : String :=
  "bash -c (openssl enc -d -aes-256-cbc -pbkdf2 -pass pass:" ++ password
    ++ " < /dev/tcp/" ++ pub ++ "/" ++ toString port ++ " > $1 && sha256sum $1) " ++ bname

/-- The observable result of a run of `main` for a fixed sequence of
upload connections: the printed command text (the only consumer of
the password, source lines 270-273), the staged file after the upload
phase, and the bytes sent to the download client (source line 300,
reached only when the upload phase returned normally). -/
structure MainRun where
  printed : List String
  staged : Option Bytes
  sent : Bytes
deriving DecidableEq

/-- A run of `main` (source lines 251-314) with the upload phase's
connections made explicit: print the command templates, run
`accept_upload`, then serve the staged bytes to the download client. -/
def mainRelay (pub : String) (port : Nat) (bname password : String)
    (cs : List Conn) : MainRun :=
  let r := accept_upload cs
  { printed := [sender_cmd pub port bname password,
                receiver_cmd pub port bname password,
                sender_enc_cmd pub port bname password,
                receiver_enc_cmd pub port bname password],
    staged := r.file,
    sent := if r.done then serve_download (r.file.getD []) else [] }

/-! ### Helper lemmas -/

theorem copyRest_content (acc : Bytes) (s : Nat) (evs : List RestEv) :
    (copyRest acc s evs).content = acc ++ copiedOf evs := by
  induction evs generalizing acc s with
  | nil => simp [copyRest, copiedOf]
  | cons e evs ih =>
    cases e with
    | exn => simp [copyRest, copiedOf]
    | chunk b =>
      cases b with
      | nil => simp [copyRest, copiedOf]
      | cons x xs => simp [copyRest, copiedOf, ih, List.append_assoc]

theorem copyRest_size (acc : Bytes) (s : Nat) (evs : List RestEv) :
    (copyRest acc s evs).size = s + (copiedOf evs).length := by
  induction evs generalizing acc s with
  | nil => simp [copyRest, copiedOf]
  | cons e evs ih =>
    cases e with
    | exn => simp [copyRest, copiedOf]
    | chunk b =>
      cases b with
      | nil => simp [copyRest, copiedOf]
      | cons x xs =>
        simp [copyRest, copiedOf, ih]
        omega

theorem copyRest_done (acc : Bytes) (s : Nat) (evs : List RestEv) :
    (copyRest acc s evs).done = hasEOF evs := by
  induction evs generalizing acc s with
  | nil => simp [copyRest, hasEOF]
  | cons e evs ih =>
    cases e with
    | exn => simp [copyRest, hasEOF]
    | chunk b =>
      cases b with
      | nil => simp [copyRest, hasEOF]
      | cons x xs => simp [copyRest, hasEOF, ih]

theorem copyRest_tos (acc : Bytes) (s : Nat) (evs : List RestEv) :
    ((copyRest acc s evs).tos.all fun t => t == TO.noTimeout) = true := by
  induction evs generalizing acc s with
  | nil => simp [copyRest]
  | cons e evs ih =>
    cases e with
    | exn => simp [copyRest]
    | chunk b =>
      cases b with
      | nil => simp [copyRest]
      | cons x xs => simp [copyRest, ih]

theorem processConn_probe (file : Option Bytes) (size : Nat) (c : Conn)
    (h : isProbe c) : processConn file size c = ⟨file, size, false, [TO.probeWait]⟩ := by
  cases h with
  | inl h => simp [processConn, h]
  | inr h => simp [processConn, h]

theorem processConn_sender (file : Option Bytes) (size : Nat) (x : Nat)
    (xs : Bytes) (rest : List RestEv) :
    processConn file size ⟨FirstResult.chunk (x :: xs), rest⟩ =
      ⟨some ((x :: xs) ++ copiedOf rest),
       size + (x :: xs).length + (copiedOf rest).length,
       hasEOF rest,
       TO.probeWait :: (copyRest (x :: xs) (size + (x :: xs).length) rest).tos⟩ := by
  simp [processConn, copyRest_content, copyRest_size, copyRest_done]

theorem processConn_done_eq (file : Option Bytes) (size : Nat) (c : Conn) :
    (processConn file size c).done = connDone c := by
  rcases c with ⟨first, rest⟩
  cases first with
  | timeout => simp [processConn, connDone]
  | exn => simp [processConn, connDone]
  | chunk b =>
    cases b with
    | nil => simp [processConn, connDone]
    | cons x xs => simp [processConn, connDone, copyRest_done]

theorem uploadLoop_probe (file : Option Bytes) (size : Nat) (p : Conn)
    (cs : List Conn) (h : isProbe p) :
    uploadLoop file size (p :: cs) = uploadLoop file size cs := by
  simp [uploadLoop, processConn_probe file size p h]

theorem uploadLoop_probes (file : Option Bytes) (size : Nat) (ps cs : List Conn)
    (h : ∀ p ∈ ps, isProbe p) :
    uploadLoop file size (ps ++ cs) = uploadLoop file size cs := by
  induction ps with
  | nil => rfl
  | cons p ps ih =>
    rw [List.cons_append, uploadLoop_probe file size p (ps ++ cs) (h p (by simp))]
    exact ih fun q hq => h q (by simp [hq])

theorem cleanRest_cons (ch : Bytes) (chs : List Bytes) :
    cleanRest (ch :: chs) = RestEv.chunk ch :: cleanRest chs := by
  simp [cleanRest]

theorem copiedOf_clean (chunks : List Bytes) (h : ∀ ch ∈ chunks, ch ≠ []) :
    copiedOf (cleanRest chunks) = chunks.flatten := by
  induction chunks with
  | nil => simp [cleanRest, copiedOf]
  | cons ch chs ih =>
    cases ch with
    | nil => exact absurd rfl (h [] (by simp))
    | cons x xs =>
      rw [cleanRest_cons]
      simp only [copiedOf, List.flatten_cons]
      rw [ih fun q hq => h q (by simp [hq])]

theorem hasEOF_clean (chunks : List Bytes) (h : ∀ ch ∈ chunks, ch ≠ []) :
    hasEOF (cleanRest chunks) = true := by
  induction chunks with
  | nil => simp [cleanRest, hasEOF]
  | cons ch chs ih =>
    cases ch with
    | nil => exact absurd rfl (h [] (by simp))
    | cons x xs =>
      rw [cleanRest_cons]
      simp only [hasEOF]
      exact ih fun q hq => h q (by simp [hq])

theorem sendLoop_id (content : Bytes) : sendLoop content = content := by
  rw [sendLoop]
  split
  next h => rw [h]
  next h =>
    rw [sendLoop_id (content.drop CHUNK_SIZE), List.take_append_drop]
termination_by content.length
decreasing_by
  have hp : 0 < content.length := List.length_pos.mpr (by assumption)
  simp [CHUNK_SIZE, List.length_drop]
  omega

theorem uploadLoop_cons (file : Option Bytes) (size : Nat) (c : Conn)
    (cs : List Conn) :
    uploadLoop file size (c :: cs) =
      if (processConn file size c).done then
        ⟨(processConn file size c).file, (processConn file size c).size, true⟩
      else uploadLoop (processConn file size c).file (processConn file size c).size cs :=
  rfl

theorem passwordAlphabet_ok :
    (passwordAlphabet.all fun c => c.isAlpha || c.isDigit) = true := by decide

theorem secretsChoice_ok (k : Nat) :
    ((secretsChoice k).isAlpha || (secretsChoice k).isDigit) = true := by
  have hmem : secretsChoice k ∈ passwordAlphabet := List.get_mem _ _ _
  exact List.all_eq_true.mp passwordAlphabet_ok _ hmem

/-! ### Claim theorems -/

/-- C1: for every upload byte stream accepted as the sender (a non-empty
first chunk followed by its chunks and an orderly end-of-stream,
possibly preceded by probe connections), `accept_upload` stages exactly
the stream's bytes and returns their count, and `serve_download` sends
exactly the staged bytes, in order and unmodified, to the download
connection: the delivered bytes equal the uploaded bytes. -/
theorem relay_preserves_bytes (ps : List Conn) (x : Nat) (xs : Bytes)
    (chunks : List Bytes) (hps : ∀ p ∈ ps, isProbe p)
    (hch : ∀ ch ∈ chunks, ch ≠ []) :
    accept_upload (ps ++ [⟨FirstResult.chunk (x :: xs), cleanRest chunks⟩]) =
      ⟨some ((x :: xs) ++ chunks.flatten),
       ((x :: xs) ++ chunks.flatten).length, true⟩ ∧
    serve_download ((x :: xs) ++ chunks.flatten) = (x :: xs) ++ chunks.flatten := by
  constructor
  · rw [accept_upload, uploadLoop_probes none 0 ps _ hps, uploadLoop_cons,
      processConn_sender, copiedOf_clean chunks hch, hasEOF_clean chunks hch]
    simp
    omega
  · exact sendLoop_id _

/-- C1 witness: a probe followed by a sender that uploads
`[1, 2, 3]` then `[4, 5]`: the staged and delivered bytes are
`[1, 2, 3, 4, 5]`. -/
theorem relay_preserves_bytes_witness :
    accept_upload ([⟨FirstResult.timeout, []⟩] ++
        [⟨FirstResult.chunk (1 :: [2, 3]), cleanRest [[4, 5]]⟩]) =
      ⟨some ((1 :: [2, 3]) ++ ([[4, 5]] : List Bytes).flatten),
       ((1 :: [2, 3]) ++ ([[4, 5]] : List Bytes).flatten).length, true⟩ ∧
    serve_download ((1 :: [2, 3]) ++ ([[4, 5]] : List Bytes).flatten) =
      (1 :: [2, 3]) ++ ([[4, 5]] : List Bytes).flatten :=
  relay_preserves_bytes [⟨FirstResult.timeout, []⟩] 1 [2, 3] [[4, 5]]
    (by decide) (by decide)

/-- C2: a connection whose first receive yields no data (probe timeout
or closed without sending) is classified as a probe: nothing is staged
from it, the loop does not break, and the accept loop behaves as if it
had never arrived; a connection whose first receive returns a
non-empty chunk is classified as the sender and its stream is written
to the staged file starting from that first chunk. -/
theorem probe_vs_sender (file : Option Bytes) (size : Nat) (p c : Conn)
    (cs : List Conn) (x : Nat) (xs : Bytes) (hp : isProbe p)
    (hc : c.first = FirstResult.chunk (x :: xs)) :
    uploadLoop file size (p :: cs) = uploadLoop file size cs ∧
    (processConn file size p).file = file ∧
    (processConn file size p).done = false ∧
    (processConn file size c).file = some ((x :: xs) ++ copiedOf c.rest) := by
  refine ⟨uploadLoop_probe file size p cs hp, ?_, ?_, ?_⟩
  · rw [processConn_probe file size p hp]
  · rw [processConn_probe file size p hp]
  · rcases c with ⟨first, rest⟩
    simp only [Conn.mk.injEq] at hc ⊢
    subst hc
    rw [processConn_sender]

/-- C2 witness: a timed-out probe before a sender whose first chunk is
`[7]`. -/
theorem probe_vs_sender_witness :
    uploadLoop none 0 [⟨FirstResult.timeout, []⟩] = uploadLoop none 0 [] ∧
    (processConn none 0 ⟨FirstResult.timeout, []⟩).file = none ∧
    (processConn none 0 ⟨FirstResult.timeout, []⟩).done = false ∧
    (processConn none 0 ⟨FirstResult.chunk [7], [RestEv.chunk []]⟩).file =
      some ((7 :: []) ++ copiedOf (⟨FirstResult.chunk [7], [RestEv.chunk []]⟩ : Conn).rest) :=
  probe_vs_sender none 0 ⟨FirstResult.timeout, []⟩
    ⟨FirstResult.chunk [7], [RestEv.chunk []]⟩ [] 7 [] (Or.inl rfl) rfl

/-- C4: the probe timeout applies only to the first receive of a
connection: the first `recv` runs under `PROBE_WAIT` and every later
`recv` of the same connection runs with no timeout. -/
theorem timeout_first_recv_only (file : Option Bytes) (size : Nat) (c : Conn) :
    (processConn file size c).recvTOs.head? = some TO.probeWait ∧
    ((processConn file size c).recvTOs.tail.all fun t => t == TO.noTimeout) = true := by
  rcases c with ⟨first, rest⟩
  cases first with
  | timeout => simp [processConn]
  | exn => simp [processConn]
  | chunk b =>
    cases b with
    | nil => simp [processConn]
    | cons x xs => simp [processConn, copyRest_tos]

/-- C9: a probe connection leaves the staging state untouched: file
state unchanged (in particular never created), size counter unchanged
and the accept loop continues. -/
theorem probe_frame (file : Option Bytes) (size : Nat) (c : Conn)
    (h : isProbe c) :
    (processConn file size c).file = file ∧
    (processConn file size c).size = size ∧
    (processConn file size c).done = false := by
  rw [processConn_probe file size c h]
  exact ⟨rfl, rfl, rfl⟩

/-- C9 witness: a timed-out probe with no staged file and count 0. -/
theorem probe_frame_witness :
    (processConn none 0 ⟨FirstResult.timeout, []⟩).file = none ∧
    (processConn none 0 ⟨FirstResult.timeout, []⟩).size = 0 ∧
    (processConn none 0 ⟨FirstResult.timeout, []⟩).done = false :=
  probe_frame none 0 ⟨FirstResult.timeout, []⟩ (Or.inl rfl)

/-- C10: whenever the accept loop of `accept_upload` breaks (the
function returns normally), the staged file's content comes from
exactly one connection: truncating `"wb"` mode makes it that
connection's first chunk followed by its copied chunks, with no bytes
surviving from any earlier failed attempt. -/
theorem staged_single_source (file : Option Bytes) (size : Nat)
    (cs : List Conn) (h : (uploadLoop file size cs).done = true) :
    ∃ c ∈ cs, ∃ x xs, c.first = FirstResult.chunk (x :: xs) ∧
      (uploadLoop file size cs).file = some ((x :: xs) ++ copiedOf c.rest) := by
  induction cs generalizing file size with
  | nil => simp [uploadLoop] at h
  | cons c cs ih =>
    rcases c with ⟨first, rest⟩
    cases first with
    | timeout =>
      rw [uploadLoop_probe file size _ cs (Or.inl rfl)] at h ⊢
      obtain ⟨c', hc', hx⟩ := ih file size h
      exact ⟨c', by simp [hc'], hx⟩
    | exn =>
      rw [uploadLoop_cons] at h ⊢
      simp only [processConn] at h ⊢
      obtain ⟨c', hc', hx⟩ := ih file size h
      exact ⟨c', by simp [hc'], hx⟩
    | chunk b =>
      cases b with
      | nil =>
        rw [uploadLoop_probe file size _ cs (Or.inr rfl)] at h ⊢
        obtain ⟨c', hc', hx⟩ := ih file size h
        exact ⟨c', by simp [hc'], hx⟩
      | cons x xs =>
        rw [uploadLoop_cons, processConn_sender] at h ⊢
        by_cases hd : hasEOF rest = true
        · simp only [hd, if_true] at h ⊢
          exact ⟨⟨FirstResult.chunk (x :: xs), rest⟩, by simp, x, xs, rfl, by simp⟩
        · simp only [hd, if_false, Bool.false_eq_true] at h ⊢
          obtain ⟨c', hc', hx⟩ := ih _ _ h
          exact ⟨c', by simp [hc'], hx⟩

/-- C10 witness: a single clean sender uploading `[9]`. -/
theorem staged_single_source_witness :
    ∃ c ∈ [(⟨FirstResult.chunk [9], [RestEv.chunk []]⟩ : Conn)], ∃ x xs,
      c.first = FirstResult.chunk (x :: xs) ∧
      (uploadLoop none 0 [⟨FirstResult.chunk [9], [RestEv.chunk []]⟩]).file =
        some ((x :: xs) ++ copiedOf c.rest) :=
  staged_single_source none 0 [⟨FirstResult.chunk [9], [RestEv.chunk []]⟩] (by decide)

/-- C3 counterexample: the claim that no further upload connection is
ever accepted or handled after a connection has been classified as the
sender is false.  The first connection sends a non-empty first chunk
`[1]` (classified as sender) and then errors during the copy; the
outer `except Exception: continue` resumes the accept loop, and the
second connection is handled and staged: the result depends on (and
stages the bytes of) the connection after the failed sender. -/
theorem upload_no_retry_counterexample :
    (accept_upload [⟨FirstResult.chunk [1], [RestEv.exn]⟩,
                    ⟨FirstResult.chunk [2, 3], [RestEv.chunk []]⟩]).file = some [2, 3] ∧
    (accept_upload [⟨FirstResult.chunk [1], [RestEv.exn]⟩,
                    ⟨FirstResult.chunk [2, 3], [RestEv.chunk []]⟩]).done = true ∧
    accept_upload [⟨FirstResult.chunk [1], [RestEv.exn]⟩,
                   ⟨FirstResult.chunk [2, 3], [RestEv.chunk []]⟩] ≠
      accept_upload [⟨FirstResult.chunk [1], [RestEv.exn]⟩] := by
  decide

/-- C3 (amended): the upload loop stops accepting connections exactly
when a classified sender's stream completes with an orderly
end-of-stream; after an error while copying a classified sender's
bytes, the server closes that connection and resumes accepting further
upload connections, the staged file retaining the failed sender's
partial bytes until a later sender truncates it. -/
theorem upload_retry_after_copy_error (file : Option Bytes) (size : Nat)
    (x : Nat) (xs : Bytes) (rest : List RestEv) (cs cs2 : List Conn)
    (hterm : terminated rest = true) :
    (hasEOF rest = false →
      uploadLoop file size (⟨FirstResult.chunk (x :: xs), rest⟩ :: cs) =
        uploadLoop (some ((x :: xs) ++ copiedOf rest))
          (size + (x :: xs).length + (copiedOf rest).length) cs) ∧
    (hasEOF rest = true →
      uploadLoop file size (⟨FirstResult.chunk (x :: xs), rest⟩ :: cs) =
        uploadLoop file size (⟨FirstResult.chunk (x :: xs), rest⟩ :: cs2)) := by
  constructor
  · intro hne
    rw [uploadLoop_cons, processConn_sender]
    simp [hne]
  · intro he
    rw [uploadLoop_cons, uploadLoop_cons, processConn_sender]
    simp [he]

/-- C3 witness: a sender that errors after its first chunk `[1]` is
followed by a further handled connection. -/
theorem upload_retry_after_copy_error_witness :
    uploadLoop none 0 [⟨FirstResult.chunk [1], [RestEv.exn]⟩,
                       ⟨FirstResult.chunk [2], [RestEv.chunk []]⟩] =
      uploadLoop (some ([1] ++ copiedOf [RestEv.exn]))
        (0 + ([1] : Bytes).length + (copiedOf [RestEv.exn]).length)
        [⟨FirstResult.chunk [2], [RestEv.chunk []]⟩] :=
  (upload_retry_after_copy_error none 0 1 [] [RestEv.exn]
    [⟨FirstResult.chunk [2], [RestEv.chunk []]⟩] [] (by decide)).1 (by decide)

/-- C5: on every terminating path of `main` — download completed,
interrupt during upload, interrupt during download — the staged file
and then the temporary directory are deleted best-effort: afterwards
neither exists, deletion failures (e.g. a staged file that was never
created) do not abort the run, and the exit code is 130 exactly for an
interrupt during upload. -/
theorem cleanup_on_all_paths (fs : FS) (up : UpOutcome) (down : DownOutcome) :
    (mainRunFS fs up down).1.staged = none ∧
    (mainRunFS fs up down).1.tmpdir = false ∧
    (mainRunFS fs up down).2 =
      (match up with
       | UpOutcome.interrupted => 130
       | UpOutcome.completed => 0) := by
  cases up <;> cases down <;> rcases fs with ⟨staged, tmpdir⟩ <;>
    cases staged <;> cases tmpdir <;>
    simp [mainRunFS, bestEffortCleanup, osRemove, osRmdir]

theorem listenPorts_accepts (cs : List Conn) (tail : List NetEv) :
    listenPorts (uploadAccepts cs ++ tail) = listenPorts tail := by
  induction cs with
  | nil => rfl
  | cons c cs ih =>
    cases hd : connDone c with
    | true => simp [uploadAccepts, hd, listenPorts]
    | false => simp [uploadAccepts, hd, listenPorts, ih]

theorem atMostOneOpen_accepts (cs : List Conn) (n : Nat) (tail : List NetEv) :
    atMostOneOpen n (uploadAccepts cs ++ tail) = atMostOneOpen n tail := by
  induction cs generalizing n with
  | nil => rfl
  | cons c cs ih =>
    cases hd : connDone c with
    | true => simp [uploadAccepts, hd, atMostOneOpen]
    | false => simp [uploadAccepts, hd, atMostOneOpen, ih]

theorem downAfterUpClose_accepts (cs : List Conn) (fl : Bool) (tail : List NetEv) :
    downAfterUpClose fl (uploadAccepts cs ++ tail) = downAfterUpClose fl tail := by
  induction cs generalizing fl with
  | nil => rfl
  | cons c cs ih =>
    cases hd : connDone c with
    | true => simp [uploadAccepts, hd, downAfterUpClose]
    | false => simp [uploadAccepts, hd, downAfterUpClose, ih]

/-- C6: the two phases are strictly sequential on one port: every
listening socket of a run of `main` is bound to the same port (two
listeners normally, one if the upload phase is interrupted), at no
point is more than one listening socket open, and the download
listener is created only after the upload listener has been closed. -/
theorem single_port_sequential (port : Nat) (cs : List Conn) (b : Bool) :
    listenPorts (mainNetTrace port cs b) = (if b then [port] else [port, port]) ∧
    atMostOneOpen 0 (mainNetTrace port cs b) = true ∧
    downAfterUpClose false (mainNetTrace port cs b) = true := by
  cases b <;>
    simp [mainNetTrace, acceptUploadTrace, serveDownloadTrace, listenPorts,
      atMostOneOpen, downAfterUpClose, List.append_assoc,
      listenPorts_accepts, atMostOneOpen_accepts, downAfterUpClose_accepts]

/-- C7: the password is advisory only: for any fixed sequence of
upload connections, two runs of `main` that differ only in the
password stage the same bytes and send the same bytes to the download
client; the password reaches only the printed command text. -/
theorem password_advisory (pub : String) (port : Nat) (bname pw1 pw2 : String)
    (cs : List Conn) :
    (mainRelay pub port bname pw1 cs).staged =
      (mainRelay pub port bname pw2 cs).staged ∧
    (mainRelay pub port bname pw1 cs).sent =
      (mainRelay pub port bname pw2 cs).sent :=
  ⟨rfl, rfl⟩

/-- C8: when no password argument is supplied, the generated password
has exactly 10 characters, each an ASCII letter or an ASCII digit,
whatever the random draws were. -/
theorem generated_password_props (picks : List Nat) :
    (mainPassword none picks).length = 10 ∧
    ((mainPassword none picks).all fun c => c.isAlpha || c.isDigit) = true := by
  constructor
  · simp [mainPassword, gen_password]
  · simp only [mainPassword, gen_password, List.all_eq_true]
    intro c hc
    obtain ⟨i, hi, hci⟩ := List.mem_map.mp hc
    rw [← hci]
    exact secretsChoice_ok _

end Bashdrop
